import Mathlib

/-!
A formal model of the Bash completion plugin (`plugin.py`): the shell query
runner (`check_output`), the three category fetchers (`get_commands`,
`get_files`, `get_variables`), the lookup-prefix derivation and completion
orchestration of `on_query_completions` / `resolve_completions`, and the
background event-loop lifecycle (`setup_event_loop` / `shutdown_event_loop`),
together with proofs of the specified properties.
-/

namespace BashCompletions

/-- ASCII whitespace, as recognised by Python's `str.strip` and by the
regex class `\s` (the model restricts attention to ASCII text). -/
def isPySpace (c : Char) : Bool :=
  c == ' ' || c == '\t' || c == '\n' || c == '\r' || c == '\x0b' || c == '\x0c'

/-- Python `str.strip()`: removes leading and trailing whitespace, as in
`str(stdout, "utf-8").strip()` inside `check_output`. -/
def pyStrip (s : String) : String :=
  String.mk (((s.toList.dropWhile isPySpace).reverse.dropWhile isPySpace).reverse)

/-- Removal of trailing whitespace only (the literal reading of the spec
sentence "with trailing whitespace trimmed"). -/
def pyStripTrailing (s : String) : String :=
  String.mk ((s.toList.reverse.dropWhile isPySpace).reverse)

/-- Split a character list at every LF, keeping the pieces in order. -/
def splitCharsOnNl : List Char → List (List Char)
  | [] => [[]]
  | c :: rest =>
    if c = '\n' then [] :: splitCharsOnNl rest
    else
      match splitCharsOnNl rest with
      | [] => [[c]]
      | t :: ts => (c :: t) :: ts

/-- Python `str.splitlines()` restricted to LF line breaks, which is all that
shell output contains here. A trailing line break produces no trailing empty
line. -/
def splitlines (s : String) : List String :=
  if s = "" then []
  else
    let parts := (splitCharsOnNl s.toList).map (fun cs => String.mk cs)
    if parts.getLast? == some "" then parts.dropLast else parts

/-- Outcome of one spawned shell process, as observed by `check_output`:
clean completion with an exit code and captured stdout, a timeout of
`asyncio.wait_for`, or a failed spawn of the shell executable
(`FileNotFoundError`). -/
inductive ShellResult where
  | completed (returncode : Int) (stdout : String)
  | timeout
  | notFound
deriving DecidableEq, Repr

/-- The exceptions that the `try` block of `check_output` has handlers for. -/
inductive PyExc where
  | timeoutError
  | fileNotFoundError
deriving DecidableEq, Repr

/-- The shell query before exception handling: a timeout or a missing shell
executable surfaces as a raised exception, while a completed process yields
its exit code and captured stdout. -/
def rawRunner : ShellResult → Except PyExc (Int × String)
  | .completed rc out => .ok (rc, out)
  | .timeout => .error .timeoutError
  | .notFound => .error .fileNotFoundError

/-- The failure modes of the shell query runner (spec taxonomy: timeout and
unavailable shell; a nonzero exit is a normal empty outcome, not a failure). -/
def isRunnerFailure : ShellResult → Bool
  | .completed _ _ => false
  | .timeout => true
  | .notFound => true

/-- The Python attribute state behind `self.enabled`: `cls.enabled` is a
single class attribute shared by every `BashCompletionListener` instance,
while `self.enabled = False` in `check_output` creates a per-instance
attribute that shadows it. `instEnabled` records the instance attributes,
keyed by a listener-instance (view) identifier; a lookup miss falls back to
the class attribute, exactly like Python attribute resolution. -/
structure ProcState where
  clsEnabled : Bool
  instEnabled : List (Nat × Bool)
deriving DecidableEq, Repr

/-- Python attribute lookup of `self.enabled` on listener instance `i`. -/
def enabledOf (st : ProcState) (i : Nat) : Bool :=
  match st.instEnabled.lookup i with
  | some b => b
  | none => st.clsEnabled

/-- Listener instance `i` carries its own `enabled = False` attribute. -/
def instDisabled (st : ProcState) (i : Nat) : Prop :=
  st.instEnabled.lookup i = some false

/-- `check_output`, run on behalf of listener instance `i`: on a clean zero
exit it returns the captured stdout decoded and stripped; a non-zero exit
falls through to `None`; a timeout is swallowed (`except TimeoutError:
pass`); a missing shell executable sets `self.enabled = False` on the
instance (`except FileNotFoundError`) and also yields `None`. -/
def check_output (st : ProcState) (i : Nat) (r : ShellResult) :
    ProcState × Option String :=
  match rawRunner r with
  | .ok (rc, out) => (st, if rc = 0 then some (pyStrip out) else none)
  | .error .timeoutError => (st, none)
  | .error .fileNotFoundError =>
      ({ st with instEnabled := (i, false) :: st.instEnabled }, none)

/-- The `sublime.KindId` constants used by the plugin. -/
inductive KindId where
  | func
  | nspace
  | varKind
deriving DecidableEq, Repr

/-- A `sublime.CompletionItem` as constructed by the fetchers. A `none`
completion means the argument was omitted, so the trigger text itself is
inserted. -/
structure CompletionItem where
  trigger : String
  completion : Option String
  kind : KindId × String × String
  details : String
deriving DecidableEq, Repr

/-- `set(text.splitlines()) - KNOWN_COMPLETIONS`: the Python set is modelled
as a duplicate-free list; only membership and uniqueness of the result are
relied upon, so the unspecified iteration order of a Python set is
irrelevant. -/
def setMinus (lines : List String) (known : List String) : List String :=
  lines.dedup.filter (fun w => !known.contains w)

/-- `get_commands`: empty prefixes short-circuit to an empty sequence without
any shell query; otherwise `compgen -c <prefix>` is run and each output word
that is not already a known completion becomes a candidate. The middle
component of the result records the shell command lines that were issued. -/
def get_commands (known : List String) (env : String → ShellResult)
    (st : ProcState) (i : Nat) (pfx : String) :
    ProcState × List String × List CompletionItem :=
  if pfx = "" then (st, [], [])
  else
    match check_output st i (env ("compgen -c " ++ pfx)) with
    | (st1, none) => (st1, ["compgen -c " ++ pfx], [])
    | (st1, some text) =>
      if text = "" then (st1, ["compgen -c " ++ pfx], [])
      else
        (st1, ["compgen -c " ++ pfx],
          (setMinus (splitlines text) known).map (fun w =>
            { trigger := w, completion := none,
              kind := (KindId.func, "f", "command"),
              details := "shell command" }))

/-- `get_files`: `compgen -f <prefix>` is run unconditionally (an empty
prefix lists the working directory); output words not already known become
candidates. -/
def get_files (known : List String) (env : String → ShellResult)
    (st : ProcState) (i : Nat) (pfx : String) :
    ProcState × List String × List CompletionItem :=
  match check_output st i (env ("compgen -f " ++ pfx)) with
  | (st1, none) => (st1, ["compgen -f " ++ pfx], [])
  | (st1, some text) =>
    if text = "" then (st1, ["compgen -f " ++ pfx], [])
    else
      (st1, ["compgen -f " ++ pfx],
        (setMinus (splitlines text) known).map (fun w =>
          { trigger := w, completion := none,
            kind := (KindId.nspace, "f", "filesystem"),
            details := "folder or file" }))

/-- `get_variables`: `compgen -v` is run without the prefix; the prefix only
decides whether the inserted text keeps or gains the `$` sigil
(`is_var = prefix and prefix[0] == "$"`, where an empty string is falsy). -/
def get_variables (known : List String) (env : String → ShellResult)
    (st : ProcState) (i : Nat) (pfx : String) :
    ProcState × List String × List CompletionItem :=
  match check_output st i (env "compgen -v") with
  | (st1, none) => (st1, ["compgen -v"], [])
  | (st1, some text) =>
    if text = "" then (st1, ["compgen -v"], [])
    else
      let is_var : Bool := match pfx.toList with
        | [] => false
        | c :: _ => c == '$'
      (st1, ["compgen -v"],
        (setMinus (splitlines text) known).map (fun w =>
          { trigger := w, completion := some (if is_var then w else "$" ++ w),
            kind := (KindId.varKind, "v", "Variable"),
            details := "global environment variable" }))

/-- The character class of the split pattern in `on_query_completions`: the
shell metacharacters together with whitespace. -/
def isMeta (c : Char) : Bool :=
  c == '|' || c == '&' || c == '<' || c == '>' || c == '(' || c == ')' || isPySpace c

/-- The regex split with a one-character negative lookbehind for a
backslash: scan the characters, cutting at every metacharacter whose
immediately preceding character is not a backslash. `prev` is the previous
character (none at the start of the string), `acc` the reversed current
token. -/
def reSplitAux (prev : Option Char) (acc : List Char) :
    List Char → List (List Char)
  | [] => [acc.reverse]
  | c :: rest =>
    if isMeta c && !(prev == some '\\') then
      acc.reverse :: reSplitAux (some c) [] rest
    else
      reSplitAux (some c) (c :: acc) rest

/-- The token list produced by the regex split on the raw text. -/
def reSplit (s : String) : List String :=
  (reSplitAux none [] s.toList).map (fun cs => String.mk cs)

/-- The lookup-prefix derivation of `on_query_completions`: split the text of
the line before the caret on unescaped metacharacters and take the final
token. The regex split never yields an empty list, so the guarded indexing
of the source is modelled with a default. -/
def lastShellWord (raw : String) : String :=
  match (reSplit raw).getLast? with
  | some t => t
  | none => raw

/-- One step of the claim's own description of the derivation, read
directly: the word being typed is whatever has accumulated since the most
recent metacharacter not immediately preceded by a backslash. -/
def specFold (s : Option Char × List Char) (c : Char) : Option Char × List Char :=
  if isMeta c && !(s.1 == some '\\') then (some c, [])
  else (some c, s.2 ++ [c])

/-- The claim's characterisation of the effective lookup prefix as a single
left-to-right scan. -/
def specLastToken (raw : String) : String :=
  String.mk (raw.toList.foldl specFold (none, [])).2

/-- Which of the three category selectors matched at the caret position (the
opaque `match_selector` predicates of the host editor). -/
structure Categories where
  command : Bool
  file : Bool
  varCat : Bool
deriving DecidableEq, Repr

/-- Scheduling of one category fetcher inside `resolve_completions`: when its
selector matched, the fetcher runs and contributes its issued queries and its
candidate sequence as one entry of the gathered results; otherwise nothing
runs and nothing is contributed. -/
def runFetcher (doRun : Bool)
    (fetch : ProcState → ProcState × List String × List CompletionItem)
    (st : ProcState) : ProcState × List String × List (List CompletionItem) :=
  if doRun then
    let g := fetch st
    (g.1, g.2.1, [g.2.2])
  else (st, [], [])

/-- `resolve_completions`: run the applicable fetchers and collect the issued
shell queries together with the list of per-fetcher candidate sequences (the
value which `asyncio.gather` hands to the done callback). -/
def resolve_completions (known : List String) (env : String → ShellResult)
    (st : ProcState) (i : Nat) (pfx : String) (cats : Categories) :
    ProcState × List String × List (List CompletionItem) :=
  let r1 := runFetcher cats.command (fun s => get_commands known env s i pfx) st
  let r2 := runFetcher cats.file (fun s => get_files known env s i pfx) r1.1
  let r3 := runFetcher cats.varCat (fun s => get_variables known env s i pfx) r2.1
  (r3.1, r1.2.1 ++ r2.2.1 ++ r3.2.1, r1.2.2 ++ r2.2.2 ++ r3.2.2)

/-- `on_query_completions` for listener instance `i`: bail out with no
candidates and no shell query when the instance's `enabled` attribute is
false or the completion selector does not match; otherwise derive the lookup
prefix from the raw line text and resolve the applicable fetchers. The third
component is the value eventually delivered to the completion list (`none`
when nothing was scheduled at all). -/
def on_query_completions (known : List String) (env : String → ShellResult)
    (st : ProcState) (i : Nat) (raw : String) (selOk : Bool)
    (cats : Categories) :
    ProcState × List String × Option (List CompletionItem) :=
  if enabledOf st i = false then (st, [], none)
  else if selOk = false then (st, [], none)
  else
    let r := resolve_completions known env st i (lastShellWord raw) cats
    (r.1, r.2.1, some r.2.2.flatten)

/-- The module-level `__loop` / `__thread` globals of the background
execution context: whether each currently holds a live object. An event-loop
object is always truthy in Python, so truthiness coincides with being set. -/
structure LoopState where
  loopLive : Bool
  threadLive : Bool
deriving DecidableEq, Repr

/-- A raised `RuntimeError` with its message. -/
inductive PyRuntimeError where
  | runtimeError (msg : String)
deriving DecidableEq, Repr

/-- `setup_event_loop`: raises if a loop is already live, otherwise creates
the loop and starts its worker thread. -/
def setup_event_loop (st : LoopState) : Except PyRuntimeError LoopState :=
  if st.loopLive then .error (.runtimeError "Event loop already running!")
  else .ok { loopLive := true, threadLive := true }

/-- `shutdown_event_loop`: raises if no loop is live, otherwise cancels the
outstanding tasks, joins the worker thread, closes the loop and clears both
globals. -/
def shutdown_event_loop (st : LoopState) : Except PyRuntimeError LoopState :=
  if !st.loopLive then .error (.runtimeError "No event loop to shutdown!")
  else .ok { loopLive := false, threadLive := false }

/-- The single-assignment result sink (`sublime.CompletionList`): the value
it was fulfilled with, and how many times `set_completions` was called on
it. -/
structure Sink where
  value : Option (List CompletionItem)
  setCount : Nat
deriving DecidableEq, Repr

/-- One call of `CompletionList.set_completions`. -/
def set_completions (s : Sink) (v : List CompletionItem) : Sink :=
  { value := some v, setCount := s.setCount + 1 }

/-- State of one request's `asyncio.gather(*coros)` together with its result
sink: which scheduled fetchers have resolved so far, whether the gather
future's done callback has already run, and the sink. -/
structure GatherState where
  resolved : List Bool
  fired : Bool
  sink : Sink
deriving DecidableEq, Repr

/-- The state right after `resolve_completions` scheduled `n` fetchers. -/
def initGather (n : Nat) : GatherState :=
  { resolved := List.replicate n false, fired := false
    sink := { value := none, setCount := 0 } }

/-- Event-loop transitions for one request whose scheduled fetchers
eventually produce the candidate sequences `rs` (index-aligned with
`resolved`): a still-pending fetcher may resolve in any order, and once every
fetcher has resolved, the gather future's done callback runs — once — and
fulfills the sink with the concatenation of all the per-fetcher candidate
sequences. -/
inductive GatherStep (rs : List (List CompletionItem)) :
    GatherState → GatherState → Prop where
  | resolve (g : GatherState) (i : Nat) (hi : i < g.resolved.length)
      (hpending : g.resolved.get ⟨i, hi⟩ = false) :
      GatherStep rs g
        { resolved := g.resolved.set i true, fired := g.fired, sink := g.sink }
  | callback (g : GatherState) (hall : g.resolved.all id = true)
      (hnew : g.fired = false) :
      GatherStep rs g
        { resolved := g.resolved, fired := true
          sink := set_completions g.sink rs.flatten }

/-- The states one request can reach from its initial gather state. -/
def GatherReachable (rs : List (List CompletionItem)) (g : GatherState) : Prop :=
  Relation.ReflTransGen (GatherStep rs) (initGather rs.length) g

/-- A shell environment in which every query times out. -/
def envTimeout : String → ShellResult := fun _ => ShellResult.timeout

/-- A shell environment whose configured executable is missing: every spawn
raises `FileNotFoundError`. -/
def envNotFound : String → ShellResult := fun _ => ShellResult.notFound

/-- The scenario of spec property 7: `compgen -c gi` lists `git` and
`giphy`. -/
def envGi : String → ShellResult := fun cmd =>
  if cmd = "compgen -c gi" then ShellResult.completed 0 "git\ngiphy"
  else ShellResult.timeout

/-- The scenario of spec property 6: `compgen -v` lists `BARFOO` and
`OTHER`. -/
def envVars : String → ShellResult := fun cmd =>
  if cmd = "compgen -v" then ShellResult.completed 0 "BARFOO\nOTHER\n"
  else ShellResult.timeout

/-- A command candidate, as produced from the `envGi` scenario. -/
def itemGiphy : CompletionItem :=
  { trigger := "giphy", completion := none
    kind := (KindId.func, "f", "command"), details := "shell command" }

/-- A variable candidate, as produced from the `envVars` scenario with a
sigil-bearing prefix. -/
def itemBarfoo : CompletionItem :=
  { trigger := "BARFOO", completion := some "BARFOO"
    kind := (KindId.varKind, "v", "Variable")
    details := "global environment variable" }

/-- A concrete pair of fetcher results for exercising the gather model. -/
def rs0 : List (List CompletionItem) := [[itemGiphy], [itemBarfoo]]

/-- Gather state after the first of the two fetchers resolved. -/
def gMid1 : GatherState :=
  { resolved := [true, false], fired := false
    sink := { value := none, setCount := 0 } }

/-- Gather state after both fetchers resolved, callback not yet run. -/
def gMid2 : GatherState :=
  { resolved := [true, true], fired := false
    sink := { value := none, setCount := 0 } }

/-- Gather state after the done callback fulfilled the sink. -/
def gFinal : GatherState :=
  { resolved := [true, true], fired := true
    sink := { value := some [itemGiphy, itemBarfoo], setCount := 1 } }

lemma setMinus_not_mem {w : String} {lines known : List String}
    (h : w ∈ setMinus lines known) : w ∉ known := by
  unfold setMinus at h
  have hp := List.of_mem_filter h
  simpa using hp

lemma setMinus_nodup (lines known : List String) :
    (setMinus lines known).Nodup :=
  (List.nodup_dedup lines).filter _

lemma get_commands_cases (known : List String) (env : String → ShellResult)
    (st : ProcState) (i : Nat) (pfx : String) :
    (get_commands known env st i pfx).2.2 = [] ∨
    ∃ text, (check_output st i (env ("compgen -c " ++ pfx))).2 = some text ∧
      (get_commands known env st i pfx).2.2 =
        (setMinus (splitlines text) known).map (fun w =>
          { trigger := w, completion := none,
            kind := (KindId.func, "f", "command"),
            details := "shell command" }) := by
  unfold get_commands
  by_cases hp : pfx = ""
  · rw [if_pos hp]; exact Or.inl rfl
  · rw [if_neg hp]
    rcases h : check_output st i (env ("compgen -c " ++ pfx)) with ⟨st1, t⟩
    cases t with
    | none => exact Or.inl rfl
    | some text =>
      dsimp only
      split
      · exact Or.inl rfl
      · exact Or.inr ⟨text, rfl, rfl⟩

lemma get_files_cases (known : List String) (env : String → ShellResult)
    (st : ProcState) (i : Nat) (pfx : String) :
    (get_files known env st i pfx).2.2 = [] ∨
    ∃ text, (check_output st i (env ("compgen -f " ++ pfx))).2 = some text ∧
      (get_files known env st i pfx).2.2 =
        (setMinus (splitlines text) known).map (fun w =>
          { trigger := w, completion := none,
            kind := (KindId.nspace, "f", "filesystem"),
            details := "folder or file" }) := by
  unfold get_files
  rcases h : check_output st i (env ("compgen -f " ++ pfx)) with ⟨st1, t⟩
  cases t with
  | none => exact Or.inl rfl
  | some text =>
    dsimp only
    split
    · exact Or.inl rfl
    · exact Or.inr ⟨text, rfl, rfl⟩

lemma get_variables_cases (known : List String) (env : String → ShellResult)
    (st : ProcState) (i : Nat) (pfx : String) :
    (get_variables known env st i pfx).2.2 = [] ∨
    ∃ text, (check_output st i (env "compgen -v")).2 = some text ∧
      (get_variables known env st i pfx).2.2 =
        (setMinus (splitlines text) known).map (fun w =>
          { trigger := w
            completion := some (if (match pfx.toList with
                | [] => false
                | c :: _ => c == '$') then w else "$" ++ w)
            kind := (KindId.varKind, "v", "Variable")
            details := "global environment variable" }) := by
  unfold get_variables
  rcases h : check_output st i (env "compgen -v") with ⟨st1, t⟩
  cases t with
  | none => exact Or.inl rfl
  | some text =>
    dsimp only
    split
    · exact Or.inl rfl
    · exact Or.inr ⟨text, rfl, rfl⟩

lemma trigger_mem_of_mem_map {known ws : List String}
    {f : String → CompletionItem} (hf : ∀ w, (f w).trigger = w)
    {item : CompletionItem} (h : item ∈ (setMinus ws known).map f) :
    item.trigger ∈ setMinus ws known := by
  rcases List.mem_map.mp h with ⟨w, hw, hfw⟩
  subst hfw
  rw [hf w]; exact hw

lemma triggers_map_eq {ws : List String} {f : String → CompletionItem}
    (hf : ∀ w, (f w).trigger = w) :
    (ws.map f).map (fun it => it.trigger) = ws := by
  induction ws with
  | nil => rfl
  | cons w t ih => simp only [List.map_cons, hf, ih]

/-- C1: no candidate produced by any of the three fetchers has a trigger
that is a member of the exclusion set. -/
theorem c1_exclusion_invariant (known : List String)
    (env : String → ShellResult) (st : ProcState) (i : Nat) (pfx : String)
    (item : CompletionItem)
    (h : item ∈ (get_commands known env st i pfx).2.2
       ∨ item ∈ (get_files known env st i pfx).2.2
       ∨ item ∈ (get_variables known env st i pfx).2.2) :
    item.trigger ∉ known := by
  rcases h with h | h | h
  · rcases get_commands_cases known env st i pfx with hc | ⟨text, -, hc⟩
    · rw [hc] at h; simp at h
    · rw [hc] at h
      exact setMinus_not_mem (trigger_mem_of_mem_map (fun w => rfl) h)
  · rcases get_files_cases known env st i pfx with hc | ⟨text, -, hc⟩
    · rw [hc] at h; simp at h
    · rw [hc] at h
      exact setMinus_not_mem (trigger_mem_of_mem_map (fun w => rfl) h)
  · rcases get_variables_cases known env st i pfx with hc | ⟨text, -, hc⟩
    · rw [hc] at h; simp at h
    · rw [hc] at h
      exact setMinus_not_mem (trigger_mem_of_mem_map (fun w => rfl) h)

theorem c1_exclusion_witness : itemGiphy.trigger ∉ ["git"] :=
  c1_exclusion_invariant ["git"] envGi
    { clsEnabled := true, instEnabled := [] } 0 "gi" itemGiphy
    (Or.inl (by decide))

/-- C10: within each single fetcher the candidate triggers are pairwise
distinct, because duplicate output lines are collapsed into a set before
candidates are built. -/
theorem c10_within_fetcher_dedup (known : List String)
    (env : String → ShellResult) (st : ProcState) (i : Nat) (pfx : String) :
    ((get_commands known env st i pfx).2.2.map (fun it => it.trigger)).Nodup
  ∧ ((get_files known env st i pfx).2.2.map (fun it => it.trigger)).Nodup
  ∧ ((get_variables known env st i pfx).2.2.map
      (fun it => it.trigger)).Nodup := by
  refine ⟨?_, ?_, ?_⟩
  · rcases get_commands_cases known env st i pfx with hc | ⟨text, -, hc⟩
    · rw [hc]; simp
    · rw [hc, triggers_map_eq (fun w => rfl)]; exact setMinus_nodup _ _
  · rcases get_files_cases known env st i pfx with hc | ⟨text, -, hc⟩
    · rw [hc]; simp
    · rw [hc, triggers_map_eq (fun w => rfl)]; exact setMinus_nodup _ _
  · rcases get_variables_cases known env st i pfx with hc | ⟨text, -, hc⟩
    · rw [hc]; simp
    · rw [hc, triggers_map_eq (fun w => rfl)]; exact setMinus_nodup _ _

lemma isVar_head (pfx : String) :
    ((match pfx.toList with | [] => false | c :: _ => c == '$') = true)
      ↔ pfx.toList.head? = some '$' := by
  cases pfx.toList with
  | nil => simp
  | cons c t => simp [List.head?]

/-- C7: every variable candidate's insertion text is the bare name when the
typed prefix starts with the sigil and the sigil-prefixed name otherwise,
while the trigger is always the bare output word. -/
theorem c7_variable_sigil (known : List String) (env : String → ShellResult)
    (st : ProcState) (i : Nat) (pfx : String) (item : CompletionItem)
    (h : item ∈ (get_variables known env st i pfx).2.2) :
    item.completion = some (if pfx.toList.head? = some '$' then item.trigger
                            else "$" ++ item.trigger)
  ∧ (∀ out, env "compgen -v" = ShellResult.completed 0 out →
       item.trigger ∈ setMinus (splitlines (pyStrip out)) known) := by
  rcases get_variables_cases known env st i pfx with hv | ⟨text, htext, hv⟩
  · rw [hv] at h; simp at h
  · rw [hv] at h
    rcases List.mem_map.mp h with ⟨w, hw, hfw⟩
    subst hfw
    constructor
    · dsimp only
      by_cases hd : pfx.toList.head? = some '$'
      · rw [if_pos hd, if_pos ((isVar_head pfx).mpr hd)]
      · rw [if_neg hd, if_neg (fun hh => hd ((isVar_head pfx).mp hh))]
    · intro out henv
      rw [henv] at htext
      have h2 : (check_output st i (ShellResult.completed 0 out)).2
          = some (pyStrip out) := rfl
      rw [h2] at htext
      have h3 : pyStrip out = text := Option.some.inj htext
      rw [h3]
      exact hw

theorem c7_variable_sigil_witness :
    itemBarfoo.completion
      = some (if "$BAR".toList.head? = some '$' then itemBarfoo.trigger
              else "$" ++ itemBarfoo.trigger) :=
  (c7_variable_sigil [] envVars { clsEnabled := true, instEnabled := [] } 0
    "$BAR" itemBarfoo (by decide)).1

lemma check_output_fail (st : ProcState) (i : Nat) (r : ShellResult)
    (hfail : isRunnerFailure r = true) : (check_output st i r).2 = none := by
  cases r with
  | completed rc out => simp [isRunnerFailure] at hfail
  | timeout => rfl
  | notFound => rfl

lemma get_commands_fail (known : List String) (env : String → ShellResult)
    (st : ProcState) (i : Nat) (pfx : String) (r : ShellResult)
    (hfail : isRunnerFailure r = true)
    (henv : env ("compgen -c " ++ pfx) = r) :
    (get_commands known env st i pfx).2.2 = [] := by
  unfold get_commands
  split
  · rfl
  · rw [henv]
    cases r with
    | completed rc out => simp [isRunnerFailure] at hfail
    | timeout => rfl
    | notFound => rfl

lemma get_files_fail (known : List String) (env : String → ShellResult)
    (st : ProcState) (i : Nat) (pfx : String) (r : ShellResult)
    (hfail : isRunnerFailure r = true)
    (henv : env ("compgen -f " ++ pfx) = r) :
    (get_files known env st i pfx).2.2 = [] := by
  unfold get_files
  rw [henv]
  cases r with
  | completed rc out => simp [isRunnerFailure] at hfail
  | timeout => rfl
  | notFound => rfl

lemma get_variables_fail (known : List String) (env : String → ShellResult)
    (st : ProcState) (i : Nat) (pfx : String) (r : ShellResult)
    (hfail : isRunnerFailure r = true)
    (henv : env "compgen -v" = r) :
    (get_variables known env st i pfx).2.2 = [] := by
  unfold get_variables
  rw [henv]
  cases r with
  | completed rc out => simp [isRunnerFailure] at hfail
  | timeout => rfl
  | notFound => rfl

lemma resolve_allfail (known : List String) (st : ProcState) (i : Nat)
    (pfx : String) (r : ShellResult) (hfail : isRunnerFailure r = true)
    (env : String → ShellResult) (henv : ∀ c, env c = r) :
    (resolve_completions known env st i pfx
        { command := true, file := true, varCat := true }).2.2
      = [[], [], []] := by
  simp only [resolve_completions, runFetcher, if_true]
  rw [get_commands_fail known env st i pfx r hfail (henv _)]
  rw [get_files_fail known env _ i pfx r hfail (henv _)]
  rw [get_variables_fail known env _ i pfx r hfail (henv _)]
  rfl

lemma on_query_allfail (known : List String) (st : ProcState) (i : Nat)
    (raw : String) (r : ShellResult) (hfail : isRunnerFailure r = true)
    (env : String → ShellResult) (henv : ∀ c, env c = r)
    (hen : enabledOf st i = true) :
    (on_query_completions known env st i raw true
        { command := true, file := true, varCat := true }).2.2 = some [] := by
  unfold on_query_completions
  rw [hen]
  simp only [Bool.true_eq_false, if_false, ite_false]
  rw [resolve_allfail known st i (lastShellWord raw) r hfail env henv]
  rfl

/-- C3: a shell-runner failure (a timeout or a missing executable) raises at
the runner boundary but is contained by `check_output`; the affected fetcher
contributes zero candidates exactly as if there were no output; and even with
every scheduled fetcher failing, the request still completes: the merge step
runs and the sink receives the (empty) concatenation instead of the request
aborting. -/
theorem c3_failure_containment (known : List String) (st : ProcState)
    (i : Nat) (pfx : String) (r : ShellResult)
    (hfail : isRunnerFailure r = true) :
    (∃ e, rawRunner r = Except.error e)
  ∧ (check_output st i r).2 = none
  ∧ (∀ env, env ("compgen -c " ++ pfx) = r →
       (get_commands known env st i pfx).2.2 = [])
  ∧ (∀ env, env ("compgen -f " ++ pfx) = r →
       (get_files known env st i pfx).2.2 = [])
  ∧ (∀ env, env "compgen -v" = r →
       (get_variables known env st i pfx).2.2 = [])
  ∧ (∀ env raw, (∀ c, env c = r) → enabledOf st i = true →
       (on_query_completions known env st i raw true
           { command := true, file := true, varCat := true }).2.2
         = some []) := by
  refine ⟨?_, check_output_fail st i r hfail, ?_, ?_, ?_, ?_⟩
  · cases r with
    | completed rc out => simp [isRunnerFailure] at hfail
    | timeout => exact ⟨PyExc.timeoutError, rfl⟩
    | notFound => exact ⟨PyExc.fileNotFoundError, rfl⟩
  · exact fun env henv => get_commands_fail known env st i pfx r hfail henv
  · exact fun env henv => get_files_fail known env st i pfx r hfail henv
  · exact fun env henv => get_variables_fail known env st i pfx r hfail henv
  · exact fun env raw henv hen =>
      on_query_allfail known st i raw r hfail env henv hen

theorem c3_failure_containment_witness :
    (check_output { clsEnabled := true, instEnabled := [] } 0
        ShellResult.timeout).2 = none
  ∧ (on_query_completions [] envTimeout
        { clsEnabled := true, instEnabled := [] } 0 "gi" true
        { command := true, file := true, varCat := true }).2.2 = some [] :=
  ⟨(c3_failure_containment [] { clsEnabled := true, instEnabled := [] } 0 "gi"
      ShellResult.timeout (by decide)).2.1,
   (c3_failure_containment [] { clsEnabled := true, instEnabled := [] } 0 "gi"
      ShellResult.timeout (by decide)).2.2.2.2.2 envTimeout "gi"
      (fun c => rfl) rfl⟩

/-- C6: with an empty derived prefix the commands fetcher returns an empty
candidate sequence, issues no shell query, and leaves the state unchanged. -/
theorem c6_empty_prefix_short_circuit (known : List String)
    (env : String → ShellResult) (st : ProcState) (i : Nat) :
    get_commands known env st i "" = (st, [], []) := by
  rfl

/-- C9: starting the background execution context while one is already live
raises a RuntimeError instead of creating a second context, and shutting it
down while none is live likewise raises instead of silently succeeding. -/
theorem c9_loop_lifecycle (st : LoopState) :
    (st.loopLive = true →
      setup_event_loop st
        = .error (.runtimeError "Event loop already running!"))
  ∧ (st.loopLive = false →
      shutdown_event_loop st
        = .error (.runtimeError "No event loop to shutdown!")) := by
  constructor
  · intro h; simp [setup_event_loop, h]
  · intro h; simp [shutdown_event_loop, h]

theorem c9_loop_lifecycle_witness :
    setup_event_loop { loopLive := true, threadLive := true }
      = .error (.runtimeError "Event loop already running!")
  ∧ shutdown_event_loop { loopLive := false, threadLive := false }
      = .error (.runtimeError "No event loop to shutdown!") :=
  ⟨(c9_loop_lifecycle { loopLive := true, threadLive := true }).1 rfl,
   (c9_loop_lifecycle { loopLive := false, threadLive := false }).2 rfl⟩

/-- C4, as stated, is false: on a clean zero exit `check_output` applies
Python `str.strip()`, which removes leading whitespace as well, so for the
captured output " a" it returns "a" rather than the trailing-trimmed " a". -/
theorem c4_counterexample :
    ¬ ((check_output { clsEnabled := true, instEnabled := [] } 0
          (ShellResult.completed 0 " a")).2 = some (pyStripTrailing " a")) := by
  decide

/-- C4 amended: on a clean zero exit `check_output` returns the captured
stdout with leading and trailing whitespace trimmed; a non-zero exit yields
`None` (an empty-result success, not an error), which downstream fetchers
treat identically to no output. -/
theorem c4_runner_result_amended (st : ProcState) (i : Nat) (out : String)
    (rc : Int) (pfx : String) (known : List String) (h : rc ≠ 0) :
    (check_output st i (ShellResult.completed 0 out)).2 = some (pyStrip out)
  ∧ (check_output st i (ShellResult.completed rc out)).2 = none
  ∧ (∀ env : String → ShellResult,
       env ("compgen -f " ++ pfx) = ShellResult.completed rc out →
       (get_files known env st i pfx).2.2 = []) := by
  refine ⟨rfl, ?_, ?_⟩
  · simp [check_output, rawRunner, h]
  · intro env henv
    unfold get_files
    rw [henv]
    simp [check_output, rawRunner, h]

theorem c4_runner_result_witness :
    (check_output { clsEnabled := true, instEnabled := [] } 0
        (ShellResult.completed 0 " a")).2 = some (pyStrip " a") :=
  (c4_runner_result_amended { clsEnabled := true, instEnabled := [] } 0 " a" 1
    "x" [] (by decide)).1

lemma lookup_cons_self (l : List (Nat × Bool)) (i : Nat) :
    ((i, false) :: l).lookup i = some false := by
  simp [List.lookup]

lemma lookup_cons_false (l : List (Nat × Bool)) (i j : Nat)
    (h : l.lookup i = some false) :
    ((j, false) :: l).lookup i = some false := by
  cases hij : (i == j) with
  | true => simp [List.lookup, hij]
  | false => simpa [List.lookup, hij] using h

lemma check_output_preserves (st : ProcState) (i : Nat) (r : ShellResult)
    (j : Nat) (h : instDisabled st j) :
    instDisabled (check_output st i r).1 j := by
  cases r with
  | completed rc out => exact h
  | timeout => exact h
  | notFound => exact lookup_cons_false st.instEnabled j i h

lemma get_commands_preserves (known : List String)
    (env : String → ShellResult) (st : ProcState) (i : Nat) (pfx : String)
    (j : Nat) (h : instDisabled st j) :
    instDisabled (get_commands known env st i pfx).1 j := by
  unfold get_commands
  split
  · exact h
  · have hp := check_output_preserves st i (env ("compgen -c " ++ pfx)) j h
    rcases hco : check_output st i (env ("compgen -c " ++ pfx)) with ⟨st1, t⟩
    rw [hco] at hp
    cases t with
    | none => exact hp
    | some text =>
      dsimp only
      split
      · exact hp
      · exact hp

lemma get_files_preserves (known : List String)
    (env : String → ShellResult) (st : ProcState) (i : Nat) (pfx : String)
    (j : Nat) (h : instDisabled st j) :
    instDisabled (get_files known env st i pfx).1 j := by
  unfold get_files
  have hp := check_output_preserves st i (env ("compgen -f " ++ pfx)) j h
  rcases hco : check_output st i (env ("compgen -f " ++ pfx)) with ⟨st1, t⟩
  rw [hco] at hp
  cases t with
  | none => exact hp
  | some text =>
    dsimp only
    split
    · exact hp
    · exact hp

lemma get_variables_preserves (known : List String)
    (env : String → ShellResult) (st : ProcState) (i : Nat) (pfx : String)
    (j : Nat) (h : instDisabled st j) :
    instDisabled (get_variables known env st i pfx).1 j := by
  unfold get_variables
  have hp := check_output_preserves st i (env "compgen -v") j h
  rcases hco : check_output st i (env "compgen -v") with ⟨st1, t⟩
  rw [hco] at hp
  cases t with
  | none => exact hp
  | some text =>
    dsimp only
    split
    · exact hp
    · exact hp

lemma runFetcher_preserves (b : Bool)
    (fetch : ProcState → ProcState × List String × List CompletionItem)
    (st : ProcState) (j : Nat)
    (hf : ∀ s, instDisabled s j → instDisabled (fetch s).1 j)
    (h : instDisabled st j) :
    instDisabled (runFetcher b fetch st).1 j := by
  cases b with
  | false => exact h
  | true => exact hf st h

lemma resolve_preserves (known : List String) (env : String → ShellResult)
    (st : ProcState) (i : Nat) (pfx : String) (cats : Categories) (j : Nat)
    (h : instDisabled st j) :
    instDisabled (resolve_completions known env st i pfx cats).1 j := by
  unfold resolve_completions
  dsimp only
  apply runFetcher_preserves _ _ _ _
    (fun s hs => get_variables_preserves known env s i pfx j hs)
  apply runFetcher_preserves _ _ _ _
    (fun s hs => get_files_preserves known env s i pfx j hs)
  apply runFetcher_preserves _ _ _ _
    (fun s hs => get_commands_preserves known env s i pfx j hs)
  exact h

lemma enabledOf_of_instDisabled (st : ProcState) (i : Nat)
    (h : instDisabled st i) : enabledOf st i = false := by
  unfold instDisabled at h
  unfold enabledOf
  rw [h]

lemma on_query_disabled (known : List String) (env : String → ShellResult)
    (st : ProcState) (i : Nat) (raw : String) (selOk : Bool)
    (cats : Categories) (h : instDisabled st i) :
    on_query_completions known env st i raw selOk cats = (st, [], none) := by
  unfold on_query_completions
  rw [enabledOf_of_instDisabled st i h]
  simp

lemma on_query_preserves (known : List String) (env : String → ShellResult)
    (st : ProcState) (j : Nat) (raw : String) (selOk : Bool)
    (cats : Categories) (i : Nat) (h : instDisabled st i) :
    instDisabled (on_query_completions known env st j raw selOk cats).1 i := by
  unfold on_query_completions
  split
  · exact h
  · split
    · exact h
    · exact resolve_preserves known env st j (lastShellWord raw) cats i h

/-- C5, as stated, is false: `self.enabled = False` in `check_output`
creates an attribute on the single listener instance whose query hit
`FileNotFoundError`, so after instance 0's query meets the missing shell, a
query from listener instance 1 still issues a fresh shell query — the
feature is not disabled process-wide. -/
theorem c5_counterexample :
    (on_query_completions [] envNotFound
        (on_query_completions [] envNotFound
          { clsEnabled := true, instEnabled := [] } 0 "x" true
          { command := true, file := false, varCat := false }).1
        1 "x" true
        { command := true, file := false, varCat := false }).2.1 ≠ [] := by
  decide

/-- C5 amended: the disable is per listener instance, not process-wide.
Once a query on instance `i` meets `FileNotFoundError`, that instance
carries `enabled = False` for the remaining process lifetime: every
subsequent query on instance `i` returns no candidates, issues no shell
query and leaves the state unchanged, and no later query on any instance
removes the flag; other instances are unaffected until they hit the failure
themselves. -/
theorem c5_per_instance_disable (st : ProcState) (i : Nat) :
    instDisabled (check_output st i ShellResult.notFound).1 i
  ∧ (∀ st', instDisabled st' i →
       ∀ (known : List String) (env : String → ShellResult) (raw : String)
         (selOk : Bool) (cats : Categories),
         on_query_completions known env st' i raw selOk cats
           = (st', [], none))
  ∧ (∀ st' (j : Nat), instDisabled st' i →
       ∀ (known : List String) (env : String → ShellResult) (raw : String)
         (selOk : Bool) (cats : Categories),
         instDisabled (on_query_completions known env st' j raw selOk cats).1
           i) := by
  refine ⟨lookup_cons_self st.instEnabled i, ?_, ?_⟩
  · exact fun st' hd known env raw selOk cats =>
      on_query_disabled known env st' i raw selOk cats hd
  · exact fun st' j hd known env raw selOk cats =>
      on_query_preserves known env st' j raw selOk cats i hd

theorem c5_per_instance_disable_witness :
    on_query_completions [] envNotFound
        { clsEnabled := true, instEnabled := [(0, false)] } 0 "x" true
        { command := true, file := true, varCat := true }
      = ({ clsEnabled := true, instEnabled := [(0, false)] }, [], none) :=
  (c5_per_instance_disable { clsEnabled := true, instEnabled := [] } 0).2.1
    { clsEnabled := true, instEnabled := [(0, false)] } rfl
    [] envNotFound "x" true { command := true, file := true, varCat := true }

lemma getLast?_cons_eq {α : Type} (l : List α) (a : α) (v : α)
    (h : l.getLast? = some v) : (a :: l).getLast? = some v := by
  cases l with
  | nil => simp at h
  | cons b t => rw [List.getLast?_cons_cons]; exact h

lemma reSplitAux_cons (prev : Option Char) (acc : List Char) (c : Char)
    (rest : List Char) :
    reSplitAux prev acc (c :: rest)
      = if isMeta c && !(prev == some '\\') then
          acc.reverse :: reSplitAux (some c) [] rest
        else reSplitAux (some c) (c :: acc) rest := rfl

lemma specFold_eq (prev : Option Char) (acc2 : List Char) (c : Char) :
    specFold (prev, acc2) c
      = if isMeta c && !(prev == some '\\') then (some c, [])
        else (some c, acc2 ++ [c]) := rfl

lemma reSplitAux_getLast (l : List Char) :
    ∀ (prev : Option Char) (acc : List Char),
      (reSplitAux prev acc l).getLast?
        = some ((l.foldl specFold (prev, acc.reverse)).2) := by
  induction l with
  | nil => intro prev acc; rfl
  | cons c rest ih =>
    intro prev acc
    by_cases hg : (isMeta c && !(prev == some '\\')) = true
    · rw [reSplitAux_cons, if_pos hg, List.foldl_cons, specFold_eq, if_pos hg]
      have hr := ih (some c) []
      rw [List.reverse_nil] at hr
      exact getLast?_cons_eq _ _ _ hr
    · rw [reSplitAux_cons, if_neg hg, List.foldl_cons, specFold_eq, if_neg hg]
      have hr := ih (some c) (c :: acc)
      rw [List.reverse_cons] at hr
      exact hr

/-- C8: the effective lookup prefix is exactly the claim's description: the
final token of the split of the raw text on the metacharacters and
whitespace, splitting everywhere except where the metacharacter is
immediately preceded by a backslash — equivalently, the run of characters
after the last unescaped metacharacter. -/
theorem c8_prefix_derivation (raw : String) :
    lastShellWord raw = specLastToken raw := by
  unfold lastShellWord specLastToken reSplit
  have hk := reSplitAux_getLast raw.toList none []
  rw [List.reverse_nil] at hk
  have hm : ((reSplitAux none [] raw.toList).map
        (fun cs => String.mk cs)).getLast?
      = some (String.mk ((raw.toList.foldl specFold (none, [])).2)) := by
    rw [List.getLast?_map, hk]; rfl
  rw [hm]

lemma gather_resolve_all_absurd {g : GatherState} {i : Nat}
    (hi : i < g.resolved.length) (hall : g.resolved.all id = true)
    (hpending : g.resolved.get ⟨i, hi⟩ = false) : False := by
  have hmem : g.resolved.get ⟨i, hi⟩ ∈ g.resolved :=
    List.get_mem g.resolved i hi
  have hid := List.all_eq_true.mp hall _ hmem
  rw [hpending] at hid
  simp at hid

lemma gather_inv (rs : List (List CompletionItem)) (g : GatherState)
    (h : GatherReachable rs g) :
    (g.fired = false ∧ g.sink = { value := none, setCount := 0 }) ∨
    (g.fired = true ∧ g.sink = { value := some rs.flatten, setCount := 1 }
      ∧ g.resolved.all id = true) := by
  induction h with
  | refl => exact Or.inl ⟨rfl, rfl⟩
  | tail hsteps hstep ih =>
    cases hstep with
    | resolve i hi hpending =>
      rcases ih with ⟨hf, hs⟩ | ⟨hf, hs, hall⟩
      · exact Or.inl ⟨hf, hs⟩
      · exact (gather_resolve_all_absurd hi hall hpending).elim
    | callback hall hnew =>
      rcases ih with ⟨hf, hs⟩ | ⟨hf, hs, hall2⟩
      · right
        refine ⟨rfl, ?_, hall⟩
        dsimp only
        rw [hs]
        rfl
      · rw [hf] at hnew; simp at hnew

/-- C2: in every state one request's gather can reach, the sink has been
fulfilled at most once; it is fulfilled only after every scheduled fetcher
has resolved (success or degraded-empty); and any value it delivers is
exactly the concatenation of all the scheduled fetchers' candidate
sequences, never a strict subset. -/
theorem c2_single_complete_delivery (rs : List (List CompletionItem))
    (g : GatherState) (h : GatherReachable rs g) :
    g.sink.setCount ≤ 1
  ∧ (g.sink.setCount = 1 → g.resolved.all id = true)
  ∧ (∀ v, g.sink.value = some v → v = rs.flatten) := by
  rcases gather_inv rs g h with ⟨hf, hs⟩ | ⟨hf, hs, hall⟩
  · refine ⟨?_, ?_, ?_⟩
    · rw [hs]; simp
    · rw [hs]; simp
    · intro v hv; rw [hs] at hv; simp at hv
  · refine ⟨?_, fun _ => hall, ?_⟩
    · rw [hs]
    · intro v hv
      rw [hs] at hv
      exact (Option.some.inj hv).symm

theorem c2_single_complete_delivery_witness :
    gFinal.sink.setCount ≤ 1
  ∧ (gFinal.sink.setCount = 1 → gFinal.resolved.all id = true)
  ∧ (∀ v, gFinal.sink.value = some v → v = rs0.flatten) :=
  c2_single_complete_delivery rs0 gFinal
    (Relation.ReflTransGen.tail
      (Relation.ReflTransGen.tail
        (Relation.ReflTransGen.single
          (GatherStep.resolve (initGather rs0.length) 0 (by decide)
            (by decide)))
        (GatherStep.resolve gMid1 1 (by decide) (by decide)))
      (GatherStep.callback gMid2 (by decide) (by decide)))

end BashCompletions
